import Mathlib

/-!
Verification of the label-preparation pipeline in `asr/utils/aspire.py`
(data preparation for a CTC-trained acoustic model).

Each Python function used by the claims is embedded as an executable Lean
definition: pure transformations become Lean functions on lists, file
writes become explicit lists of (path, contents) pairs, and Python
exceptions become `Except` errors.  Strings are modelled by Lean `String`
(a wrapper around `List Char`), one line of a text file by one `String`.
-/

namespace Aspire

/- ------------------------------------------------------------------ -/
/- Definitions                                                         -/
/- ------------------------------------------------------------------ -/

/-- Modelled from the spec: the function `remove_duplicates` lives in
`asr/utils/misc.py`, which is not part of the provided sources; only its
caller `make_ctc_labels` (aspire.py line 173) is.  The spec defines the
collapse operation as a single pass that keeps `input[0]` and, for `i > 0`,
keeps `input[i]` iff it differs from `input[i-1]` (runs of equal adjacent
labels collapse to one occurrence). -/
def remove_duplicates {α : Type} [DecidableEq α] : List α → List α
  | [] => []
  | [x] => [x]
  | x :: y :: rest =>
    if y = x then remove_duplicates (y :: rest)
    else x :: remove_duplicates (y :: rest)

/-- The labels emitted at positions `i > 0`: pair every element with its
predecessor and keep it exactly when it differs from that predecessor.
This transcribes the spec sentence "for i>0, emit input[i] iff
input[i] ≠ input[i-1]" for comparison with `remove_duplicates`. -/
def pairEmits {α : Type} [DecidableEq α] (l : List α) : List α :=
  (l.zip l.tail).filterMap (fun p => if p.2 ≠ p.1 then some p.2 else none)

/-- The indexwise description of the collapse output given by the spec:
empty input gives empty output, otherwise the head followed by the
emitted later positions. -/
def collapseSpec {α : Type} [DecidableEq α] : List α → List α
  | [] => []
  | a :: t => a :: pairEmits (a :: t)

/-- One Python list update `counts[i] += k`: raises `IndexError` when `i`
is out of range.  Labels are non-negative integers (data model), so the
negative-index wrap-around of Python indexing does not arise. -/
def incAt (cs : List Nat) (i : Nat) (k : Nat) : Except String (List Nat) :=
  if h : i < cs.length then Except.ok (cs.set i (cs[i] + k))
  else Except.error "IndexError: list index out of range"

/-- The inner loop of `count_priors`: `for c in phns: counts[int(c)] += 1`
(aspire.py lines 200-201). -/
def countFrames (cs : List Nat) (phns : List Nat) : Except String (List Nat) :=
  phns.foldlM (fun a c => incAt a c 1) cs

/-- One iteration of the outer loop of `count_priors`: count the frames of
one utterance, then `counts[int(blank)] += len(phns) + 1` (line 202). -/
def countUtt (blank : Nat) (cs : List Nat) (phns : List Nat) : Except String (List Nat) := do
  let cs1 ← countFrames cs phns
  incAt cs1 blank (phns.length + 1)

/-- The counting phase of `count_priors` (lines 196-202):
`counts = [0] * len(labels)` followed by the loop over all utterances. -/
def countPriorsCore (vocabSize blank : Nat) (utts : List (List Nat)) :
    Except String (List Nat) :=
  utts.foldlM (countUtt blank) (List.replicate vocabSize 0)

/-- Raw frame occurrences of label `i` over all utterances (spec wording:
"increment that label's raw count by 1" per occurrence). -/
def rawCount (i : Nat) (utts : List (List Nat)) : Nat :=
  (utts.map (fun u => u.count i)).sum

/-- The extra blank-label contribution (spec wording: "increment the blank
label's count by (number of frames in that utterance's sequence + 1)"). -/
def blankExtra (utts : List (List Nat)) : Nat :=
  (utts.map (fun u => u.length + 1)).sum

/-- The Prior Count Vector as described by the spec: entry `i` is the raw
occurrence count of label `i`, plus the blank inflation at the blank
index. -/
def priorSpecVector (vocabSize blank : Nat) (utts : List (List Nat)) : List Nat :=
  (List.range vocabSize).map
    (fun i => rawCount i utts + if i = blank then blankExtra utts else 0)

/-- The value Python passes as `count_priors`'s first parameter
`target_dir`: `process` would pass a path string, but `make_ctc_labels`
(line 179) passes the list of phn file names positionally. -/
inductive PyPathArg where
  | str : String → PyPathArg
  | strList : List String → PyPathArg

/-- `Path(target_dir)`: succeeds on a string, raises `TypeError` on a
list. -/
def pyPath : PyPathArg → Except String String
  | PyPathArg.str s => Except.ok s
  | PyPathArg.strList _ =>
      Except.error "TypeError: argument should be a str or an os.PathLike object, not list"

/-- `count_priors` (lines 182-205) with its filesystem effects made
explicit.  `phnFilesArg` is the optional second parameter; when it is
`none` the function scans `Path(target_dir)` recursively (the scan result
is supplied as `scanResult`, already parsed).  On success the returned
pair is the written priors file: its path `target_dir/priors_count.txt`
and its integer contents; an `error` result means the run raised and no
file was written. -/
def count_priors_io (target_dir : PyPathArg) (phnFilesArg : Option (List (List Nat)))
    (scanResult : List (List Nat)) (vocabSize blank : Nat) :
    Except String (String × List Nat) := do
  let files ← match phnFilesArg with
    | some fs => Except.ok fs
    | none => do
        let _ ← pyPath target_dir
        Except.ok scanResult
  let counts ← countPriorsCore vocabSize blank files
  let d ← pyPath target_dir
  Except.ok (d ++ "/priors_count.txt", counts)

/-- The prior-count files a `count_priors` run leaves on disk: one on
success, none when the run raised. -/
def filesWritten : Except String (String × List Nat) → List String
  | Except.ok pr => [pr.1]
  | Except.error _ => []

/-- Accumulate the decimal value of a digit run; any non-digit character
fails the parse. -/
def parseNatAux : List Char → Nat → Option Nat
  | [], acc => some acc
  | c :: cs, acc =>
    if '0' ≤ c ∧ c ≤ '9' then parseNatAux cs (acc * 10 + (c.toNat - 48))
    else none

/-- A non-empty run of decimal digits, as a natural number. -/
def parseNatChars : List Char → Option Nat
  | [] => none
  | cs => parseNatAux cs 0

/-- A decimal integer token with an optional leading minus sign. -/
def parseIntToken (s : String) : Option Int :=
  match s.data with
  | '-' :: ds => (parseNatChars ds).map (fun n => -(n : Int))
  | ds => (parseNatChars ds).map (fun n => (n : Int))

/-- Parse one line of a label file as `np.loadtxt(..., dtype="int")`
does: a decimal integer token; any other token raises `ValueError`. -/
def parseLabelLine (s : String) : Except String Int :=
  match parseIntToken s with
  | some n => Except.ok n
  | none => Except.error ("ValueError: invalid literal for int: " ++ s)

/-- Parse a whole label file, one integer per line; the first malformed
line raises. -/
def parseLabelFile (lines : List String) : Except String (List Int) :=
  lines.mapM parseLabelLine

/-- The output path computation of `make_ctc_labels` (line 177):
`phn_file.replace("phn", "ctc")` specialised to its fixed arguments.
Python `str.replace` substitutes every non-overlapping occurrence of
"phn", scanning left to right, anywhere in the path. -/
def replace_phn_ctc : List Char → List Char
  | c1 :: c2 :: c3 :: rest =>
    if c1 = 'p' ∧ c2 = 'h' ∧ c3 = 'n' then
      'c' :: 't' :: 'c' :: replace_phn_ctc rest
    else c1 :: replace_phn_ctc (c2 :: c3 :: rest)
  | l => l

/-- The path of the collapsed-label file written for a given source label
file (line 177). -/
def ctc_file (phn_file : String) : String :=
  String.mk (replace_phn_ctc phn_file.data)

/-- Whether "phn" occurs as a substring of a character list. -/
def containsPhn : List Char → Bool
  | c1 :: c2 :: c3 :: rest =>
    decide (c1 = 'p' ∧ c2 = 'h' ∧ c3 = 'n') || containsPhn (c2 :: c3 :: rest)
  | _ => false

/-- The conversion loop of `make_ctc_labels` (lines 170-178): each label
file is parsed, collapsed with `remove_duplicates` and written as a
sibling `.ctc` file.  There is no exception handler, so a parse failure
propagates and ends the loop; the result is the list of (path, contents)
pairs written before the loop ended, together with the raised error, if
any. -/
def ctcLoop : List (String × List String) → List (String × List Int) × Option String
  | [] => ([], none)
  | (name, lines) :: rest =>
    match parseLabelFile lines with
    | Except.error e => ([], some e)
    | Except.ok phns =>
      let r := ctcLoop rest
      ((ctc_file name, remove_duplicates phns) :: r.1, r.2)

/-- `make_ctc_labels` (lines 165-179): the conversion loop followed — when
no exception was raised — by the call `count_priors(phn_files)`, which
passes the list of phn file names positionally as the `target_dir`
parameter and leaves `phn_files=None`. -/
def make_ctc_labels_run (files : List (String × List String))
    (scanResult : List (List Nat)) (vocabSize blank : Nat) :
    List (String × List Int) × Except String (String × List Nat) :=
  match ctcLoop files with
  | (written, some e) => (written, Except.error e)
  | (written, none) =>
      (written,
        count_priors_io (PyPathArg.strList (files.map Prod.fst)) none
          scanResult vocabSize blank)

/-- The manifest join of `make_manifest` (lines 229-235): one CSV row per
wav-index entry whose utterance id also appears in the transcript index;
every other id is skipped without error.  A `wav` entry is
(uttid, (wav path, samples)); a `txt` entry is (uttid, (txt path, text));
a row is (uttid, wav path, samples, txt path). -/
def make_manifest_rows (wav : List (String × String × Nat))
    (txt : List (String × String × String)) :
    List (String × String × Nat × String) :=
  wav.filterMap (fun e =>
    match txt.lookup e.1 with
    | some tv => some (e.1, e.2.1, e.2.2, tv.1)
    | none => none)

/-- The allowed character set `CHAR_MASK` (line 37): the lowercase
letters, then apostrophe, hyphen, dot, underscore, the two angle
brackets, the two square brackets and the space, given by character
code. -/
def CHAR_MASK : List Char :=
  "abcdefghijklmnopqrstuvwxyz".data ++
    [Char.ofNat 39, Char.ofNat 45, Char.ofNat 46, Char.ofNat 95,
     Char.ofNat 60, Char.ofNat 62, Char.ofNat 91, Char.ofNat 93, Char.ofNat 32]

/-- `strip_text` (lines 40-43): lower-case the text, then join exactly
those characters that belong to `CHAR_MASK`, in their original order. -/
def strip_text (text : String) : String :=
  String.mk ((text.data.map Char.toLower).filter (fun x => decide (x ∈ CHAR_MASK)))

/-- Python `line.split(" ", 1)` unpacked into two variables: the part
before the first space and everything after it; a line with no space
yields too few values, raising `ValueError` (modelled as `none`). -/
def splitOnce (l : List Char) : Option (List Char × List Char) :=
  if (' ' : Char) ∈ l then
    some (l.takeWhile (fun c => decide (c ≠ ' ')),
      (l.dropWhile (fun c => decide (c ≠ ' '))).tail)
  else none

/-- Destination directory for a per-utterance file (lines 115-120): an
utterance id containing a hyphen is bucketed into a subdirectory named by
the id's part before the first hyphen. -/
def tarPath (target_dir mode uttid : String) : String :=
  if ('-' : Char) ∈ uttid.data then
    target_dir ++ "/" ++ mode ++ "/" ++
      String.mk (uttid.data.takeWhile (fun c => decide (c ≠ '-')))
  else target_dir ++ "/" ++ mode

/-- Path of the per-utterance transcript file (line 121). -/
def txtFilePath (target_dir mode uttid : String) : String :=
  tarPath target_dir mode uttid ++ "/" ++ uttid ++ ".txt"

/-- Accumulated effects of `get_transcripts`: the per-utterance transcript
files written as (uttid, path, contents), and the transcript index
mapping uttid to (path, cleaned text). -/
structure TranscriptState where
  writes : List (String × String × String)
  manifest : List (String × String × String)

/-- One iteration of the `get_transcripts` loop (lines 105-124): split the
line into id and text, normalize the text, skip the line if the split
fails or the normalized text is empty, otherwise write the per-utterance
file and record the manifest entry. -/
def transcriptStep (target_dir mode : String) (st : TranscriptState)
    (line : String) : TranscriptState :=
  match splitOnce line.data with
  | none => st
  | some pr =>
    let uttid := String.mk pr.1
    let managed := strip_text (String.mk pr.2)
    if managed.data = [] then st
    else
      { writes := st.writes ++
          [(uttid, txtFilePath target_dir mode uttid, managed ++ "\n")],
        manifest := st.manifest ++
          [(uttid, txtFilePath target_dir mode uttid, managed)] }

/-- The whole `get_transcripts` loop over the lines of the `text` file. -/
def get_transcripts_run (target_dir mode : String) (lines : List String) :
    TranscriptState :=
  lines.foldl (transcriptStep target_dir mode) ⟨[], []⟩

/- ------------------------------------------------------------------ -/
/- Helper lemmas                                                       -/
/- ------------------------------------------------------------------ -/

lemma pairEmits_cons_cons {α : Type} [DecidableEq α] (x y : α) (rest : List α) :
    pairEmits (x :: y :: rest) =
      (if y ≠ x then [y] else []) ++ pairEmits (y :: rest) := by
  by_cases h : y = x <;> simp [pairEmits, h]

lemma remove_duplicates_eq_collapseSpec {α : Type} [DecidableEq α] (l : List α) :
    remove_duplicates l = collapseSpec l := by
  induction l using remove_duplicates.induct with
  | case1 => rfl
  | case2 x => simp [remove_duplicates, collapseSpec, pairEmits]
  | case3 y rest ih =>
      rw [remove_duplicates, if_pos rfl, ih]
      simp [collapseSpec, pairEmits_cons_cons]
  | case4 x y rest h ih =>
      rw [remove_duplicates, if_neg h, ih]
      simp [collapseSpec, pairEmits_cons_cons, h]

lemma remove_duplicates_cons_head {α : Type} [DecidableEq α] (y : α) (rest : List α) :
    ∃ t, remove_duplicates (y :: rest) = y :: t := by
  rw [remove_duplicates_eq_collapseSpec]
  exact ⟨pairEmits (y :: rest), rfl⟩

lemma remove_duplicates_idem {α : Type} [DecidableEq α] (l : List α) :
    remove_duplicates (remove_duplicates l) = remove_duplicates l := by
  induction l using remove_duplicates.induct with
  | case1 => rfl
  | case2 x => rfl
  | case3 y rest ih =>
      rw [remove_duplicates, if_pos rfl]
      exact ih
  | case4 x y rest h ih =>
      rw [remove_duplicates, if_neg h]
      obtain ⟨t, ht⟩ := remove_duplicates_cons_head y rest
      rw [ht] at ih ⊢
      rw [remove_duplicates, if_neg h, ih]

lemma incAt_ok (cs : List Nat) (i k : Nat) (h : i < cs.length) :
    incAt cs i k = Except.ok (cs.set i (cs[i] + k)) :=
  dif_pos h

lemma countFrames_ok (phns : List Nat) : ∀ cs : List Nat,
    (∀ c ∈ phns, c < cs.length) →
    ∃ cs', countFrames cs phns = Except.ok cs' ∧ cs'.length = cs.length ∧
      ∀ j, (hj1 : j < cs'.length) → (hj2 : j < cs.length) →
        cs'[j] = cs[j] + phns.count j := by
  induction phns with
  | nil =>
      intro cs _
      exact ⟨cs, rfl, rfl, by simp⟩
  | cons c phns ih =>
      intro cs h
      have hc : c < cs.length := h c (List.mem_cons_self c phns)
      have hstep : incAt cs c 1 = Except.ok (cs.set c (cs[c] + 1)) := incAt_ok cs c 1 hc
      have hlen : (cs.set c (cs[c] + 1)).length = cs.length := by simp
      obtain ⟨cs', hok, hlen', hpt⟩ := ih (cs.set c (cs[c] + 1)) (by
        intro x hx
        rw [hlen]
        exact h x (List.mem_cons_of_mem c hx))
      refine ⟨cs', ?_, by rw [hlen', hlen], ?_⟩
      · rw [countFrames, List.foldlM_cons, hstep]
        exact hok
      · intro j hj1 hj2
        have hj3 : j < (cs.set c (cs[c] + 1)).length := by rw [hlen]; exact hj2
        have hpt2 := hpt j hj1 hj3
        by_cases hcj : c = j
        · subst hcj
          rw [hpt2, List.getElem_set_self, List.count_cons_self]
          omega
        · rw [hpt2, List.getElem_set_ne hcj, List.count_cons_of_ne (Ne.symm hcj)]

lemma countUtt_ok (blank : Nat) (cs : List Nat) (phns : List Nat)
    (hb : blank < cs.length) (h : ∀ c ∈ phns, c < cs.length) :
    ∃ cs', countUtt blank cs phns = Except.ok cs' ∧ cs'.length = cs.length ∧
      ∀ j, (hj1 : j < cs'.length) → (hj2 : j < cs.length) →
        cs'[j] = cs[j] + phns.count j +
          (if j = blank then phns.length + 1 else 0) := by
  obtain ⟨cs1, hok, hlen, hpt⟩ := countFrames_ok phns cs h
  have hb1 : blank < cs1.length := by rw [hlen]; exact hb
  refine ⟨cs1.set blank (cs1[blank] + (phns.length + 1)), ?_, by simp [hlen], ?_⟩
  · show (countFrames cs phns >>= fun cs1 => incAt cs1 blank (phns.length + 1)) = _
    rw [hok]
    exact incAt_ok cs1 blank (phns.length + 1) hb1
  · intro j hj1 hj2
    have hj3 : j < cs1.length := by rw [hlen]; exact hj2
    by_cases hbj : j = blank
    · subst hbj
      rw [List.getElem_set_self, if_pos rfl, hpt j hj3 hj2]
    · rw [List.getElem_set_ne (fun hh => hbj hh.symm), if_neg hbj, hpt j hj3 hj2]
      omega

lemma countFold_ok (blank : Nat) (utts : List (List Nat)) : ∀ cs : List Nat,
    blank < cs.length → (∀ u ∈ utts, ∀ c ∈ u, c < cs.length) →
    ∃ cs', utts.foldlM (countUtt blank) cs = Except.ok cs' ∧
      cs'.length = cs.length ∧
      ∀ j, (hj1 : j < cs'.length) → (hj2 : j < cs.length) →
        cs'[j] = cs[j] + rawCount j utts +
          (if j = blank then blankExtra utts else 0) := by
  induction utts with
  | nil =>
      intro cs _ _
      exact ⟨cs, rfl, rfl, by simp [rawCount, blankExtra]⟩
  | cons u utts ih =>
      intro cs hb h
      obtain ⟨cs1, hok1, hlen1, hpt1⟩ :=
        countUtt_ok blank cs u hb (h u (List.mem_cons_self u utts))
      obtain ⟨cs', hok', hlen', hpt'⟩ := ih cs1 (by rw [hlen1]; exact hb) (by
        intro v hv c hc
        rw [hlen1]
        exact h v (List.mem_cons_of_mem u hv) c hc)
      refine ⟨cs', ?_, by rw [hlen', hlen1], ?_⟩
      · rw [List.foldlM_cons, hok1]
        exact hok'
      · intro j hj1 hj2
        have hj3 : j < cs1.length := by rw [hlen1]; exact hj2
        rw [hpt' j hj1 hj3, hpt1 j hj3 hj2]
        have hraw : rawCount j (u :: utts) = u.count j + rawCount j utts := by
          simp [rawCount]
        have hbe : blankExtra (u :: utts) = (u.length + 1) + blankExtra utts := by
          simp [blankExtra]
        rw [hraw, hbe]
        by_cases hbj : j = blank
        · simp only [if_pos hbj]
          omega
        · simp only [if_neg hbj]
          omega

lemma countPriorsCore_ok (vocabSize blank : Nat) (utts : List (List Nat))
    (hb : blank < vocabSize) (h : ∀ u ∈ utts, ∀ c ∈ u, c < vocabSize) :
    countPriorsCore vocabSize blank utts =
      Except.ok (priorSpecVector vocabSize blank utts) := by
  obtain ⟨cs', hok, hlen, hpt⟩ :=
    countFold_ok blank utts (List.replicate vocabSize 0)
      (by simpa using hb) (by simpa using h)
  rw [countPriorsCore, hok]
  congr 1
  have hlen2 : cs'.length = vocabSize := by simpa using hlen
  apply List.ext_getElem
  · simp [priorSpecVector, hlen2]
  · intro j hj1 hj2
    have hj3 : j < (List.replicate vocabSize 0).length := by
      simp [← hlen2]; exact hj1
    rw [hpt j hj1 hj3]
    simp [priorSpecVector, hlen2, List.getElem_replicate]

lemma incAt_ok_bound {cs cs' : List Nat} {i k : Nat}
    (h : incAt cs i k = Except.ok cs') : i < cs.length ∧ cs'.length = cs.length := by
  by_cases hi : i < cs.length
  · rw [incAt_ok cs i k hi] at h
    obtain rfl := Except.ok.inj h
    exact ⟨hi, by simp⟩
  · rw [incAt, dif_neg hi] at h
    exact absurd h (by simp)

lemma countFrames_ok_bound (phns : List Nat) : ∀ cs cs' : List Nat,
    countFrames cs phns = Except.ok cs' →
    (∀ c ∈ phns, c < cs.length) ∧ cs'.length = cs.length := by
  induction phns with
  | nil =>
      intro cs cs' h
      obtain rfl := Except.ok.inj h
      exact ⟨by simp, rfl⟩
  | cons c phns ih =>
      intro cs cs' h
      rw [countFrames, List.foldlM_cons] at h
      cases hstep : incAt cs c 1 with
      | error e =>
          rw [hstep] at h
          exact absurd h (by simp [Bind.bind, Except.bind])
      | ok cs1 =>
          rw [hstep] at h
          have h2 : countFrames cs1 phns = Except.ok cs' := h
          obtain ⟨hc, hlen1⟩ := incAt_ok_bound hstep
          obtain ⟨hall, hlen⟩ := ih cs1 cs' h2
          refine ⟨?_, by rw [hlen, hlen1]⟩
          intro x hx
          rcases List.mem_cons.mp hx with rfl | hx'
          · exact hc
          · have := hall x hx'
            omega

lemma countUtt_ok_bound {blank : Nat} {cs cs' : List Nat} {phns : List Nat}
    (h : countUtt blank cs phns = Except.ok cs') :
    (∀ c ∈ phns, c < cs.length) ∧ cs'.length = cs.length := by
  have h' : (countFrames cs phns >>= fun cs1 => incAt cs1 blank (phns.length + 1)) =
      Except.ok cs' := h
  cases hstep : countFrames cs phns with
  | error e =>
      rw [hstep] at h'
      exact absurd h' (by simp [Bind.bind, Except.bind])
  | ok cs1 =>
      rw [hstep] at h'
      have h2 : incAt cs1 blank (phns.length + 1) = Except.ok cs' := h'
      obtain ⟨hall, hlen1⟩ := countFrames_ok_bound phns cs cs1 hstep
      obtain ⟨_, hlen2⟩ := incAt_ok_bound h2
      exact ⟨hall, by rw [hlen2, hlen1]⟩

lemma countFold_ok_bound (blank : Nat) (utts : List (List Nat)) : ∀ cs cs' : List Nat,
    utts.foldlM (countUtt blank) cs = Except.ok cs' →
    ∀ u ∈ utts, ∀ c ∈ u, c < cs.length := by
  induction utts with
  | nil =>
      intro cs cs' _ u hu
      exact absurd hu (List.not_mem_nil u)
  | cons v utts ih =>
      intro cs cs' h u hu
      rw [List.foldlM_cons] at h
      cases hstep : countUtt blank cs v with
      | error e =>
          rw [hstep] at h
          exact absurd h (by simp [Bind.bind, Except.bind])
      | ok cs1 =>
          rw [hstep] at h
          have h2 : utts.foldlM (countUtt blank) cs1 = Except.ok cs' := h
          obtain ⟨hall, hlen⟩ := countUtt_ok_bound hstep
          rcases List.mem_cons.mp hu with rfl | hu'
          · exact hall
          · intro c hc
            have := ih cs1 cs' h2 u hu' c hc
            omega

lemma lookup_isSome_iff {β : Type} (txt : List (String × β)) (k : String) :
    (txt.lookup k).isSome = true ↔ ∃ t ∈ txt, t.1 = k := by
  induction txt with
  | nil => simp [List.lookup]
  | cons t txt ih =>
      obtain ⟨k1, v⟩ := t
      by_cases hk : k = k1
      · subst hk
        constructor
        · intro _
          exact ⟨(k, v), List.mem_cons_self _ _, rfl⟩
        · intro _
          simp [List.lookup]
      · have hbeq : (k == k1) = false := beq_eq_false_iff_ne.mpr hk
        have hl : ((k1, v) :: txt).lookup k = txt.lookup k := by
          simp [List.lookup, hbeq]
        rw [hl, ih]
        constructor
        · rintro ⟨t, ht, htk⟩
          exact ⟨t, List.mem_cons_of_mem _ ht, htk⟩
        · rintro ⟨t, ht, htk⟩
          rcases List.mem_cons.mp ht with rfl | ht'
          · exact absurd htk.symm hk
          · exact ⟨t, ht', htk⟩

lemma lookup_eq_none_of_keys_ne {β : Type} (l : List (String × β)) (k : String)
    (h : ∀ p ∈ l, p.1 ≠ k) : l.lookup k = none := by
  induction l with
  | nil => rfl
  | cons p l ih =>
      obtain ⟨k1, v⟩ := p
      have hne : k1 ≠ k := h (k1, v) (List.mem_cons_self _ _)
      have hbeq : (k == k1) = false := beq_eq_false_iff_ne.mpr (Ne.symm hne)
      have hl : ((k1, v) :: l).lookup k = l.lookup k := by simp [List.lookup, hbeq]
      rw [hl]
      exact ih (fun p hp => h p (List.mem_cons_of_mem _ hp))

lemma mem_rows_key_iff (wav : List (String × String × Nat))
    (txt : List (String × String × String)) (k : String) :
    (∃ r ∈ make_manifest_rows wav txt, r.1 = k) ↔
      (∃ w ∈ wav, w.1 = k) ∧ ∃ t ∈ txt, t.1 = k := by
  induction wav with
  | nil => simp [make_manifest_rows]
  | cons w wav ih =>
      cases hl : txt.lookup w.1 with
      | none =>
          have hrows : make_manifest_rows (w :: wav) txt = make_manifest_rows wav txt := by
            simp [make_manifest_rows, List.filterMap_cons, hl]
          rw [hrows, ih]
          constructor
          · rintro ⟨⟨w', hw', hwk⟩, htx⟩
            exact ⟨⟨w', List.mem_cons_of_mem _ hw', hwk⟩, htx⟩
          · rintro ⟨⟨w', hw', hwk⟩, htx⟩
            rcases List.mem_cons.mp hw' with rfl | hw2
            · exfalso
              have hs : (txt.lookup k).isSome = true := (lookup_isSome_iff txt k).mpr htx
              rw [← hwk, hl] at hs
              exact absurd hs (by simp)
            · exact ⟨⟨w', hw2, hwk⟩, htx⟩
      | some tv =>
          have hrows : make_manifest_rows (w :: wav) txt =
              (w.1, w.2.1, w.2.2, tv.1) :: make_manifest_rows wav txt := by
            simp [make_manifest_rows, List.filterMap_cons, hl]
          rw [hrows]
          constructor
          · rintro ⟨r, hr, hrk⟩
            rcases List.mem_cons.mp hr with rfl | hr'
            · refine ⟨⟨w, List.mem_cons_self _ _, hrk⟩, ?_⟩
              have hs : (txt.lookup w.1).isSome = true := by rw [hl]; rfl
              obtain ⟨t, ht, htk⟩ := (lookup_isSome_iff txt w.1).mp hs
              exact ⟨t, ht, htk.trans hrk⟩
            · obtain ⟨⟨w', hw', hwk⟩, htx⟩ := ih.mp ⟨r, hr', hrk⟩
              exact ⟨⟨w', List.mem_cons_of_mem _ hw', hwk⟩, htx⟩
          · rintro ⟨⟨w', hw', hwk⟩, htx⟩
            rcases List.mem_cons.mp hw' with rfl | hw2
            · exact ⟨(w'.1, w'.2.1, w'.2.2, tv.1), List.mem_cons_self _ _, hwk⟩
            · obtain ⟨r, hr, hrk⟩ := ih.mpr ⟨⟨w', hw2, hwk⟩, htx⟩
              exact ⟨r, List.mem_cons_of_mem _ hr, hrk⟩

lemma replace_phn_ctc_clean (pre : List Char)
    (h : containsPhn (pre ++ ['.', 'p']) = false) :
    replace_phn_ctc (pre ++ ('.' :: 'p' :: 'h' :: 'n' :: [])) =
      pre ++ ('.' :: 'c' :: 't' :: 'c' :: []) := by
  induction pre with
  | nil => rfl
  | cons c pre ih =>
      rcases pre with _ | ⟨d, _ | ⟨e, pre'⟩⟩
      · show replace_phn_ctc (c :: '.' :: 'p' :: 'h' :: 'n' :: []) = _
        rw [replace_phn_ctc, if_neg (fun hh => absurd hh.2.1 (by decide))]
        rfl
      · show replace_phn_ctc (c :: d :: '.' :: 'p' :: 'h' :: 'n' :: []) = _
        rw [replace_phn_ctc, if_neg (fun hh => absurd hh.2.2 (by decide))]
        rw [replace_phn_ctc, if_neg (fun hh => absurd hh.2.1 (by decide))]
        rfl
      · have h' := h
        rw [show ((c :: d :: e :: pre') ++ ['.', 'p']) =
            c :: d :: e :: (pre' ++ ['.', 'p']) by simp] at h'
        rw [containsPhn, Bool.or_eq_false_iff] at h'
        obtain ⟨h1, h2⟩ := h'
        have h1' : ¬(c = 'p' ∧ d = 'h' ∧ e = 'n') := of_decide_eq_false h1
        show replace_phn_ctc
            (c :: d :: e :: (pre' ++ '.' :: 'p' :: 'h' :: 'n' :: [])) = _
        rw [replace_phn_ctc, if_neg h1']
        have ih' := ih h2
        rw [show ((d :: e :: pre') ++ ('.' :: 'p' :: 'h' :: 'n' :: [])) =
            d :: e :: (pre' ++ '.' :: 'p' :: 'h' :: 'n' :: []) by simp] at ih'
        rw [ih']
        simp

lemma transcriptStep_keeps (target_dir mode u : String) (st : TranscriptState)
    (line : String)
    (hline : ∀ pr, splitOnce line.data = some pr →
      String.mk pr.1 = u → (strip_text (String.mk pr.2)).data = [])
    (hw : ∀ w ∈ st.writes, w.1 ≠ u) (hm : ∀ m ∈ st.manifest, m.1 ≠ u) :
    (∀ w ∈ (transcriptStep target_dir mode st line).writes, w.1 ≠ u) ∧
      (∀ m ∈ (transcriptStep target_dir mode st line).manifest, m.1 ≠ u) := by
  cases hsp : splitOnce line.data with
  | none =>
      have hid : transcriptStep target_dir mode st line = st := by
        simp [transcriptStep, hsp]
      rw [hid]
      exact ⟨hw, hm⟩
  | some pr =>
      by_cases hemp : (strip_text (String.mk pr.2)).data = []
      · have hid : transcriptStep target_dir mode st line = st := by
          simp [transcriptStep, hsp, hemp]
        rw [hid]
        exact ⟨hw, hm⟩
      · have hkey : String.mk pr.1 ≠ u := fun hk => hemp (hline pr hsp hk)
        have hstep : transcriptStep target_dir mode st line =
            { writes := st.writes ++
                [(String.mk pr.1, txtFilePath target_dir mode (String.mk pr.1),
                  strip_text (String.mk pr.2) ++ "\n")],
              manifest := st.manifest ++
                [(String.mk pr.1, txtFilePath target_dir mode (String.mk pr.1),
                  strip_text (String.mk pr.2))] } := by
          simp [transcriptStep, hsp, hemp]
        rw [hstep]
        constructor
        · intro w hwm
          rcases List.mem_append.mp hwm with h1 | h2
          · exact hw w h1
          · obtain rfl := List.mem_singleton.mp h2
            exact hkey
        · intro m hmm
          rcases List.mem_append.mp hmm with h1 | h2
          · exact hm m h1
          · obtain rfl := List.mem_singleton.mp h2
            exact hkey

lemma transcript_fold_keeps (target_dir mode u : String) (lines : List String)
    (h : ∀ l ∈ lines, ∀ pr, splitOnce l.data = some pr →
      String.mk pr.1 = u → (strip_text (String.mk pr.2)).data = []) :
    ∀ st : TranscriptState,
      (∀ w ∈ st.writes, w.1 ≠ u) → (∀ m ∈ st.manifest, m.1 ≠ u) →
      (∀ w ∈ (lines.foldl (transcriptStep target_dir mode) st).writes, w.1 ≠ u) ∧
        (∀ m ∈ (lines.foldl (transcriptStep target_dir mode) st).manifest, m.1 ≠ u) := by
  induction lines with
  | nil =>
      intro st hw hm
      exact ⟨hw, hm⟩
  | cons line lines ih =>
      intro st hw hm
      rw [List.foldl_cons]
      obtain ⟨hw', hm'⟩ := transcriptStep_keeps target_dir mode u st line
        (h line (List.mem_cons_self _ _)) hw hm
      exact ih (fun l hl => h l (List.mem_cons_of_mem _ hl)) _ hw' hm'

/- ------------------------------------------------------------------ -/
/- Claim theorems                                                      -/
/- ------------------------------------------------------------------ -/

/-- C1: the collapse operation (`remove_duplicates`, applied by
`make_ctc_labels` to each frame-label sequence) keeps the first element of
a non-empty input and, at every later position, emits the element iff it
differs from its immediate predecessor; an empty input gives an empty
output, `[3,3,3]` collapses to `[3]` and `[1,1,2,2,1,1]` to `[1,2,1]`. -/
theorem collapse_matches_indexwise_spec :
    (∀ l : List Nat, remove_duplicates l = collapseSpec l) ∧
      remove_duplicates ([] : List Nat) = [] ∧
      remove_duplicates [3, 3, 3] = [3] ∧
      remove_duplicates [1, 1, 2, 2, 1, 1] = [1, 2, 1] :=
  ⟨fun l => remove_duplicates_eq_collapseSpec l, by decide, by decide, by decide⟩

/-- C3: collapsing an already-collapsed frame-label sequence returns it
unchanged: `remove_duplicates` is idempotent. -/
theorem collapse_idempotent (l : List Nat) :
    remove_duplicates (remove_duplicates l) = remove_duplicates l :=
  remove_duplicates_idem l

/-- C2: the prior counter starts from an all-zero vector of vocabulary
size, adds 1 per raw (non-collapsed) frame occurrence of each label, and
adds (sequence length + 1) to the blank index once per utterance; hence it
returns exactly the spec's Prior Count Vector. -/
theorem count_priors_matches_spec (vocabSize blank : Nat) (utts : List (List Nat))
    (hb : blank < vocabSize) (h : ∀ u ∈ utts, ∀ c ∈ u, c < vocabSize) :
    countPriorsCore vocabSize blank utts =
      Except.ok (priorSpecVector vocabSize blank utts) :=
  countPriorsCore_ok vocabSize blank utts hb h

/-- Witness for C2 at the spec's fixed example: utterances `[0,0,1]` and
`[2,2,2,1]`, vocabulary size 3, blank index 2, final counts `[2,2,12]`. -/
theorem count_priors_matches_spec_example :
    countPriorsCore 3 2 [[0, 0, 1], [2, 2, 2, 1]] = Except.ok [2, 2, 12] := by
  have h := count_priors_matches_spec 3 2 [[0, 0, 1], [2, 2, 2, 1]]
    (by decide) (by decide)
  rw [h]
  rfl

/-- C6: a frame label at or beyond the vocabulary size makes the counting
loop of `count_priors` raise `IndexError`; the whole run halts and no
`priors_count.txt` is written for it. -/
theorem out_of_range_label_halts (target_dir : String) (vocabSize blank : Nat)
    (utts scanResult : List (List Nat))
    (h : ∃ u ∈ utts, ∃ c ∈ u, vocabSize ≤ c) :
    (∃ e, countPriorsCore vocabSize blank utts = Except.error e) ∧
      filesWritten (count_priors_io (PyPathArg.str target_dir) (some utts)
        scanResult vocabSize blank) = [] := by
  have herr : ∃ e, countPriorsCore vocabSize blank utts = Except.error e := by
    cases hres : countPriorsCore vocabSize blank utts with
    | ok cs' =>
        exfalso
        obtain ⟨u, hu, c, hc, hge⟩ := h
        have hres' : utts.foldlM (countUtt blank) (List.replicate vocabSize 0) =
            Except.ok cs' := hres
        have hall := countFold_ok_bound blank utts _ _ hres' u hu c hc
        simp at hall
        omega
    | error e => exact ⟨e, rfl⟩
  obtain ⟨e, he⟩ := herr
  refine ⟨⟨e, he⟩, ?_⟩
  show filesWritten (countPriorsCore vocabSize blank utts >>= _) = []
  rw [he]
  rfl

/-- Witness for C6: one utterance containing label 3 with vocabulary size
3 halts the run with an error and leaves no prior-count file. -/
theorem out_of_range_label_halts_witness :
    (∃ e, countPriorsCore 3 0 [[3]] = Except.error e) ∧
      filesWritten (count_priors_io (PyPathArg.str "data") (some [[3]]) [] 3 0) = [] :=
  out_of_range_label_halts "data" 3 0 [[3]] [] (by decide)

/-- C4 (the call at line 179 is a bug): `make_ctc_labels` invokes
`count_priors(phn_files)`, binding the list of phn file names to the
`target_dir` parameter, so `Path(target_dir)` raises `TypeError`: the run
never writes a prior-count file, and when the conversion loop finished
cleanly the raised error is exactly the `TypeError`. -/
theorem make_ctc_labels_never_writes_priors (files : List (String × List String))
    (scanResult : List (List Nat)) (vocabSize blank : Nat) :
    filesWritten (make_ctc_labels_run files scanResult vocabSize blank).2 = [] ∧
      ((ctcLoop files).2 = none →
        (make_ctc_labels_run files scanResult vocabSize blank).2 =
          Except.error
            "TypeError: argument should be a str or an os.PathLike object, not list") := by
  constructor
  · rcases h : ctcLoop files with ⟨written, er⟩
    cases er with
    | none =>
        simp only [make_ctc_labels_run, h]
        rfl
    | some e =>
        simp only [make_ctc_labels_run, h]
        rfl
  · intro hnone
    rcases h : ctcLoop files with ⟨written, er⟩
    rw [h] at hnone
    simp only at hnone
    subst hnone
    simp only [make_ctc_labels_run, h]
    rfl

/-- Witness for C4: a batch of one well-formed label file still produces
no prior-count file — the run ends with the `TypeError`. -/
theorem make_ctc_labels_never_writes_priors_witness :
    (make_ctc_labels_run [("a.phn", ["1"])] [] 3 2).2 =
      Except.error
        "TypeError: argument should be a str or an os.PathLike object, not list" :=
  (make_ctc_labels_never_writes_priors [("a.phn", ["1"])] [] 3 2).2 (by decide)

/-- C5 counterexample: for the batch `a.phn` (good), `b.phn` (malformed),
`c.phn` (good), the conversion loop writes only `a.ctc` and raises: the
file after the malformed one is NOT converted, refuting the claim that
processing continues with the remaining files of the batch. -/
theorem malformed_file_stops_batch_example :
    (ctcLoop [("a.phn", ["1", "1", "2"]), ("b.phn", ["x"]), ("c.phn", ["3"])]).1 =
        [("a.ctc", [1, 2])] ∧
      (ctcLoop [("a.phn", ["1", "1", "2"]), ("b.phn", ["x"]), ("c.phn", ["3"])]).2.isSome
        = true := by
  exact ⟨by decide, by decide⟩

/-- C5 amended: a malformed label file aborts the whole batch, not just
its own conversion — the files before it are converted, the parse error
propagates out of the loop, and the files after it are left unconverted
(the written set is exactly that of the prefix). -/
theorem malformed_file_aborts_batch (pre post : List (String × List String))
    (bad : String × List String)
    (hpre : (ctcLoop pre).2 = none)
    (hbad : ∃ e, parseLabelFile bad.2 = Except.error e) :
    (ctcLoop (pre ++ bad :: post)).1 = (ctcLoop pre).1 ∧
      ∃ e, (ctcLoop (pre ++ bad :: post)).2 = some e := by
  induction pre with
  | nil =>
      obtain ⟨e, he⟩ := hbad
      obtain ⟨name, lines⟩ := bad
      simp only at he
      simp [ctcLoop, he]
  | cons f pre ih =>
      obtain ⟨name, lines⟩ := f
      cases hp : parseLabelFile lines with
      | error e =>
          rw [show ctcLoop ((name, lines) :: pre) =
              ([], some e) by simp [ctcLoop, hp]] at hpre
          exact absurd hpre (by simp)
      | ok phns =>
          have hpre' : (ctcLoop pre).2 = none := by
            have := hpre
            rw [show ctcLoop ((name, lines) :: pre) =
                ((ctc_file name, remove_duplicates phns) :: (ctcLoop pre).1,
                  (ctcLoop pre).2) by simp [ctcLoop, hp]] at this
            exact this
          obtain ⟨h1, e, h2⟩ := ih hpre'
          constructor
          · simp only [List.cons_append]
            rw [show ctcLoop ((name, lines) :: (pre ++ bad :: post)) =
                ((ctc_file name, remove_duplicates phns) ::
                  (ctcLoop (pre ++ bad :: post)).1,
                  (ctcLoop (pre ++ bad :: post)).2) by simp [ctcLoop, hp]]
            rw [show ctcLoop ((name, lines) :: pre) =
                ((ctc_file name, remove_duplicates phns) :: (ctcLoop pre).1,
                  (ctcLoop pre).2) by simp [ctcLoop, hp]]
            simpa using h1
          · refine ⟨e, ?_⟩
            simp only [List.cons_append]
            rw [show ctcLoop ((name, lines) :: (pre ++ bad :: post)) =
                ((ctc_file name, remove_duplicates phns) ::
                  (ctcLoop (pre ++ bad :: post)).1,
                  (ctcLoop (pre ++ bad :: post)).2) by simp [ctcLoop, hp]]
            simpa using h2

/-- Witness for C5's amended claim: good file, malformed file, good file —
the written outputs equal those of the one-good-file prefix and an error
is raised. -/
theorem malformed_file_aborts_batch_witness :
    (ctcLoop [("a.phn", ["1"]), ("b.phn", ["x"]), ("c.phn", ["2"])]).1 =
        (ctcLoop [("a.phn", ["1"])]).1 ∧
      ∃ e, (ctcLoop [("a.phn", ["1"]), ("b.phn", ["x"]), ("c.phn", ["2"])]).2 = some e :=
  malformed_file_aborts_batch [("a.phn", ["1"])] [("c.phn", ["2"])] ("b.phn", ["x"])
    (by decide) ⟨"ValueError: invalid literal for int: x", rfl⟩

/-- C7: the manifest builder emits a row for utterance id `k` iff `k` is a
key of both the waveform index and the transcript index; an id present in
only one of the two indices yields no row and no error (the join is
total). -/
theorem manifest_row_iff_key_in_both (wav : List (String × String × Nat))
    (txt : List (String × String × String)) (k : String) :
    (∃ r ∈ make_manifest_rows wav txt, r.1 = k) ↔
      (∃ w ∈ wav, w.1 = k) ∧ ∃ t ∈ txt, t.1 = k :=
  mem_rows_key_iff wav txt k

/-- C8 counterexample: for the source file `data/phn/a.phn` the computed
output path is `data/ctc/a.ctc` — a different directory — because
`replace("phn", "ctc")` substitutes every occurrence of "phn" in the
path, not only the extension; the same-directory sibling `data/phn/a.ctc`
claimed by the spec is not produced. -/
theorem ctc_path_not_sibling_example :
    ctc_file "data/phn/a.phn" = "data/ctc/a.ctc" ∧
      ctc_file "data/phn/a.phn" ≠ "data/phn/a.ctc" :=
  ⟨by decide, by decide⟩

/-- C8 amended: the collapsed-label path is the source path with every
occurrence of "phn" replaced by "ctc"; when "phn" does not occur in the
path before the final `.phn` extension, the output is the same-directory
sibling with the distinct extension `.ctc` (otherwise it is not — see the
counterexample). -/
theorem ctc_path_sibling_when_clean (pre : List Char)
    (h : containsPhn (pre ++ ['.', 'p']) = false) :
    ctc_file (String.mk (pre ++ ('.' :: 'p' :: 'h' :: 'n' :: []))) =
      String.mk (pre ++ ('.' :: 'c' :: 't' :: 'c' :: [])) :=
  congrArg String.mk (replace_phn_ctc_clean pre h)

/-- Witness for C8's amended claim at a clean path. -/
theorem ctc_path_sibling_when_clean_witness :
    ctc_file "data/utt01.phn" = "data/utt01.ctc" := by
  have h := ctc_path_sibling_when_clean ("data/utt01".data) (by decide)
  exact h

/-- C9: `strip_text` returns exactly the lower-cased input filtered to the
allowed `CHAR_MASK` characters; the output is an in-order selection (a
sublist) of the lowered text and every output character belongs to
`CHAR_MASK`. -/
theorem strip_text_lower_filter (t : String) :
    (strip_text t).data =
        (t.data.map Char.toLower).filter (fun x => decide (x ∈ CHAR_MASK)) ∧
      (∀ c ∈ (strip_text t).data, c ∈ CHAR_MASK) ∧
      (strip_text t).data.Sublist (t.data.map Char.toLower) := by
  refine ⟨rfl, ?_, ?_⟩
  · intro c hc
    exact of_decide_eq_true (List.mem_filter.mp hc).2
  · exact List.filter_sublist _

/-- C10 (implicit): an utterance whose normalized transcript is empty is
silently dropped by the transcript stage: no per-utterance transcript
file is written for it, it is absent from the transcript index, and
consequently the manifest join produces no row for it. -/
theorem empty_transcript_silently_dropped (target_dir mode u : String)
    (lines : List String)
    (h : ∀ l ∈ lines, ∀ pr, splitOnce l.data = some pr →
      String.mk pr.1 = u → (strip_text (String.mk pr.2)).data = []) :
    (∀ w ∈ (get_transcripts_run target_dir mode lines).writes, w.1 ≠ u) ∧
      (get_transcripts_run target_dir mode lines).manifest.lookup u = none ∧
      ∀ wav r,
        r ∈ make_manifest_rows wav (get_transcripts_run target_dir mode lines).manifest →
        r.1 ≠ u := by
  obtain ⟨hw, hm⟩ :=
    transcript_fold_keeps target_dir mode u lines h ⟨[], []⟩ (by simp) (by simp)
  refine ⟨hw, lookup_eq_none_of_keys_ne _ u hm, ?_⟩
  intro wav r hr hrk
  obtain ⟨_, t, ht, htk⟩ := (mem_rows_key_iff wav _ r.1).mp ⟨r, hr, rfl⟩
  exact hm t ht (htk.trans hrk)

/-- Witness for C10: in a two-line transcript file where utterance u2's
text normalizes to the empty string, u2 is absent from the transcript
index. -/
theorem empty_transcript_silently_dropped_witness :
    (get_transcripts_run "data" "train" ["u1 hello", "u2 123"]).manifest.lookup "u2"
      = none := by
  refine (empty_transcript_silently_dropped "data" "train" "u2"
    ["u1 hello", "u2 123"] ?_).2.1
  intro l hl pr hpr hu
  rcases List.mem_cons.mp hl with rfl | hl2
  · rw [show splitOnce "u1 hello".data = some ("u1".data, "hello".data) from
      by decide] at hpr
    obtain rfl := Option.some.inj hpr
    exact absurd hu (by decide)
  · rcases List.mem_cons.mp hl2 with rfl | hl3
    · rw [show splitOnce "u2 123".data = some ("u2".data, "123".data) from
        by decide] at hpr
      obtain rfl := Option.some.inj hpr
      decide
    · exact absurd hl3 (List.not_mem_nil l)

end Aspire
